import Mathlib

/-!
Shallow embedding of the per-page freehand drawing / undo-redo subsystem of
`src/components/PdfAnnotator/PdfViewer.tsx` (repository Pondera), together
with theorems settling the specification claims about it.

The component state relevant to the drawing core consists of
  * `drawings : {[page]: Drawing[]}`  — committed strokes per page,
  * `history  : {[page]: Drawing[][]}` — per-page undo stack of snapshots,
  * `future   : {[page]: Drawing[][]}` — per-page redo stack,
  * `currentPath : {x,y}[]`            — in-progress capture buffer,
  * `isDrawingMode : boolean`, `penColor : string`.
TypeScript dictionaries are read everywhere through the `m[page] || []`
idiom, so they are embedded as total functions `Nat → _` defaulting to `[]`.
Coordinates are rationals (the source uses JS numbers on exact fractions in
every claim considered here).
-/

/-- A normalized point, fractions of the page surface (source: `{x, y}`). -/
structure Pt where
  x : ℚ
  y : ℚ
deriving DecidableEq, Repr

/-- A committed stroke (source: `Drawing` in `src/types.ts`). -/
structure Drawing where
  id : String
  color : String
  strokeWidth : ℚ
  points : List Pt
deriving DecidableEq, Repr

/-- The drawing-related component state of `PdfViewer`. -/
structure ViewerState where
  drawings : Nat → List Drawing
  history : Nat → List (List Drawing)
  future : Nat → List (List Drawing)
  currentPath : List Pt
  isDrawingMode : Bool
  penColor : String

/-- The initial component state: all maps empty, drawing mode off, pen red
(source: the `useState` initializers in `PdfViewer`). -/
def initState : ViewerState where
  drawings := fun _ => []
  history := fun _ => []
  future := fun _ => []
  currentPath := []
  isDrawingMode := false
  penColor := "#ef4444"

/-- Embedding of `saveHistory(pageNum)`: appends the page's current stroke
list to its history stack and clears its future stack. -/
def saveHistory (pageNum : Nat) (s : ViewerState) : ViewerState :=
  let currentDrawings := s.drawings pageNum
  { s with
    history := Function.update s.history pageNum (s.history pageNum ++ [currentDrawings])
    future := Function.update s.future pageNum [] }

/-- Embedding of `undo()` for a given active page: if the page's history is
non-empty, pop its last snapshot into the live drawings, pushing the current
drawings onto the future stack. -/
def undo (activePage : Nat) (s : ViewerState) : ViewerState :=
  match (s.history activePage).getLast? with
  | none => s
  | some previousState =>
    { s with
      future := Function.update s.future activePage
        (s.future activePage ++ [s.drawings activePage])
      history := Function.update s.history activePage (s.history activePage).dropLast
      drawings := Function.update s.drawings activePage previousState }

/-- Embedding of `redo()` for a given active page: mirror image of `undo`. -/
def redo (activePage : Nat) (s : ViewerState) : ViewerState :=
  match (s.future activePage).getLast? with
  | none => s
  | some nextState =>
    { s with
      history := Function.update s.history activePage
        (s.history activePage ++ [s.drawings activePage])
      future := Function.update s.future activePage (s.future activePage).dropLast
      drawings := Function.update s.drawings activePage nextState }

/-- Embedding of `clearPageDrawings()`: a no-op when the page's drawings are
already empty, otherwise snapshot via `saveHistory` then empty the page. -/
def clearPageDrawings (activePage : Nat) (s : ViewerState) : ViewerState :=
  if s.drawings activePage = [] then s
  else
    let s1 := saveHistory activePage s
    { s1 with drawings := Function.update s1.drawings activePage [] }

/-- Embedding of the coordinate normalization performed in
`handleMouseDown` / `handleMouseMove`:
`x = (clientX - rect.left) / rect.width`, `y = (clientY - rect.top) / rect.height`. -/
def normPoint (clientX clientY left top width height : ℚ) : Pt :=
  { x := (clientX - left) / width, y := (clientY - top) / height }

/-- Embedding of `handleMouseDown(e, pageNum)` with the event already
normalized to the point `p`: a no-op unless drawing mode is on, otherwise the
capture buffer becomes the one-point path `[p]`. -/
def handleMouseDown (p : Pt) (s : ViewerState) : ViewerState :=
  if s.isDrawingMode = false then s
  else { s with currentPath := [p] }

/-- Embedding of `handleMouseMove(e)` with the event already normalized to
`p`: a no-op unless drawing mode is on and a capture is in progress,
otherwise appends `p` to the capture buffer. -/
def handleMouseMove (p : Pt) (s : ViewerState) : ViewerState :=
  if s.isDrawingMode = false ∨ s.currentPath = [] then s
  else { s with currentPath := s.currentPath ++ [p] }

/-- Embedding of `handleEnd(pageNum)`; `sid` stands for the generated
`draw-${Date.now()}` identifier. A no-op unless drawing mode is on and the
capture buffer is non-empty; otherwise snapshot via `saveHistory`, append the
captured stroke to the page's drawings, and clear the buffer. -/
def handleEnd (pageNum : Nat) (sid : String) (s : ViewerState) : ViewerState :=
  if s.isDrawingMode = false ∨ s.currentPath = [] then s
  else
    let s1 := saveHistory pageNum s
    let newDrawing : Drawing :=
      { id := sid
        color := s.penColor
        strokeWidth := if s.penColor = "eraser" then 20 else 4
        points := s.currentPath }
    { s1 with
      drawings := Function.update s1.drawings pageNum (s1.drawings pageNum ++ [newDrawing])
      currentPath := [] }

/-- The absolute-pixel position of a normalized point on a surface of pixel
size `w × h` (source: `points[i].x * canvas.width, points[i].y * canvas.height`
in `drawPath` and in `DrawingCanvas`). -/
def toPixel (p : Pt) (w h : ℚ) : ℚ × ℚ := (p.x * w, p.y * h)

/-- The pixel-level description of one composited stroke path: the absolute
path points fed to `moveTo`/`lineTo` and the canvas stroke configuration. -/
structure PathRender where
  pathPoints : List (ℚ × ℚ)
  compositeOp : String
  strokeStyle : Option String
  lineWidth : ℚ
  lineCap : String
  lineJoin : String
deriving DecidableEq, Repr

/-- Embedding of the per-stroke `drawPath(points, color, width)` helper of
`renderDrawings`, on a canvas of size `w × h`. Returns `none` when the early
return `if (points.length < 2) return;` fires (nothing is emitted), otherwise
the emitted path and canvas configuration: `destination-out` with line width
20 for the eraser sentinel, `source-over` with the stroke's own color and
width otherwise, rounded caps and joins in both cases. -/
def drawPath (points : List Pt) (color : String) (width : ℚ) (w h : ℚ) :
    Option PathRender :=
  if points.length < 2 then none
  else some
    { pathPoints := points.map (fun p => toPixel p w h)
      compositeOp := if color = "eraser" then "destination-out" else "source-over"
      strokeStyle := if color = "eraser" then none else some color
      lineWidth := if color = "eraser" then 20 else width
      lineCap := "round"
      lineJoin := "round" }

/-! Characterization lemmas for the mutating operations. -/

/-- When drawing mode is on and a capture is in progress, `handleEnd`
snapshots the page, appends the captured stroke, and clears the buffer. -/
theorem handleEnd_spec (pg : Nat) (sid : String) (s : ViewerState)
    (hm : s.isDrawingMode = true) (hc : s.currentPath ≠ []) :
    handleEnd pg sid s =
      { s with
        history := Function.update s.history pg (s.history pg ++ [s.drawings pg])
        future := Function.update s.future pg []
        drawings := Function.update s.drawings pg (s.drawings pg ++
          [{ id := sid
             color := s.penColor
             strokeWidth := if s.penColor = "eraser" then 20 else 4
             points := s.currentPath }])
        currentPath := [] } := by
  unfold handleEnd saveHistory
  rw [if_neg]
  simp [hm, hc]

/-- An `undo` on a page with an empty history stack is a no-op. -/
theorem undo_of_empty (pg : Nat) (s : ViewerState) (h : s.history pg = []) :
    undo pg s = s := by
  unfold undo
  rw [h]
  rfl

/-- A `redo` on a page with an empty future stack is a no-op. -/
theorem redo_of_empty (pg : Nat) (s : ViewerState) (h : s.future pg = []) :
    redo pg s = s := by
  unfold redo
  rw [h]
  rfl

/-- A `clearPageDrawings` on a page with no strokes is a no-op. -/
theorem clearPageDrawings_of_empty (pg : Nat) (s : ViewerState)
    (h : s.drawings pg = []) : clearPageDrawings pg s = s := by
  unfold clearPageDrawings
  rw [if_pos h]

/-- When the page's history stack is non-empty, `undo` pops its last snapshot
into the live drawings and pushes the old drawings onto the future stack. -/
theorem undo_spec (pg : Nat) (s : ViewerState) (hne : s.history pg ≠ []) :
    undo pg s =
      { s with
        future := Function.update s.future pg (s.future pg ++ [s.drawings pg])
        history := Function.update s.history pg (s.history pg).dropLast
        drawings := Function.update s.drawings pg ((s.history pg).getLast hne) } := by
  unfold undo
  rw [List.getLast?_eq_getLast _ hne]

/-- When the page's future stack is non-empty, `redo` pops its last snapshot
into the live drawings and pushes the old drawings onto the history stack. -/
theorem redo_spec (pg : Nat) (s : ViewerState) (hne : s.future pg ≠ []) :
    redo pg s =
      { s with
        history := Function.update s.history pg (s.history pg ++ [s.drawings pg])
        future := Function.update s.future pg (s.future pg).dropLast
        drawings := Function.update s.drawings pg ((s.future pg).getLast hne) } := by
  unfold redo
  rw [List.getLast?_eq_getLast _ hne]

/-- When the page has strokes, `clearPageDrawings` snapshots them onto the
history stack, clears the future stack, and empties the page. -/
theorem clearPageDrawings_spec (pg : Nat) (s : ViewerState)
    (hne : s.drawings pg ≠ []) :
    clearPageDrawings pg s =
      { s with
        history := Function.update s.history pg (s.history pg ++ [s.drawings pg])
        future := Function.update s.future pg []
        drawings := Function.update s.drawings pg [] } := by
  unfold clearPageDrawings saveHistory
  rw [if_neg hne]

/-- On a stroke of at least two points, `drawPath` emits the mapped path and
the blend configuration selected by the color. -/
theorem drawPath_of_ge_two (pts : List Pt) (color : String) (width w h : ℚ)
    (h2 : 2 ≤ pts.length) :
    drawPath pts color width w h = some
      { pathPoints := pts.map (fun p => toPixel p w h)
        compositeOp := if color = "eraser" then "destination-out" else "source-over"
        strokeStyle := if color = "eraser" then none else some color
        lineWidth := if color = "eraser" then 20 else width
        lineCap := "round"
        lineJoin := "round" } := by
  unfold drawPath
  rw [if_neg (by omega)]

/-! Shared concrete example states used by witnesses. -/

/-- Initial state with drawing mode switched on. -/
def exReady : ViewerState := { initState with isDrawingMode := true }

/-- Drawing mode on, a two-point capture in progress, one committed stroke on
page 1. -/
def exInk : ViewerState :=
  { exReady with
    currentPath := [⟨0, 0⟩, ⟨1, 1⟩]
    drawings := Function.update exReady.drawings 1
      [⟨"a", "#3b82f6", 4, [⟨0, 0⟩, ⟨1, 1⟩]⟩] }

/-- Drawing mode off while a two-point capture sits in the buffer. -/
def exFrozen : ViewerState := { initState with currentPath := [⟨0, 0⟩, ⟨1, 1⟩] }

/-! Claims C2 and C4: empty-stack undo/redo and empty-page clear are no-ops. -/

/-- C2: for every page, `undo` with an empty history stack leaves the whole
state (live drawings, history stack, future stack) unchanged, and `redo` with
an empty future stack does likewise. -/
theorem undo_redo_empty_stack_noop (pg : Nat) (s : ViewerState) :
    (s.history pg = [] → undo pg s = s) ∧ (s.future pg = [] → redo pg s = s) :=
  ⟨undo_of_empty pg s, redo_of_empty pg s⟩

/-- Witness for C2 at the initial state and page 1. -/
theorem undo_redo_empty_stack_noop_witness :
    undo 1 initState = initState ∧ redo 1 initState = initState :=
  ⟨(undo_redo_empty_stack_noop 1 initState).1 rfl,
   (undo_redo_empty_stack_noop 1 initState).2 rfl⟩

/-- C4: clearing a page whose live drawings are empty is a complete no-op: the
state, in particular that page's history and future stacks, is unchanged. -/
theorem clear_empty_page_noop (pg : Nat) (s : ViewerState)
    (h : s.drawings pg = []) : clearPageDrawings pg s = s :=
  clearPageDrawings_of_empty pg s h

/-- Witness for C4 at the initial state and page 1. -/
theorem clear_empty_page_noop_witness : clearPageDrawings 1 initState = initState :=
  clear_empty_page_noop 1 initState rfl

/-- C3: both mutating operations — a stroke commit (`handleEnd` with drawing
mode on and a non-empty capture) and a clear of a non-empty page — push the
page's current stroke sequence onto its history stack and leave its future
stack empty afterwards. -/
theorem mutation_snapshots_and_clears_future (pg : Nat) (sid : String)
    (s : ViewerState) :
    (s.isDrawingMode = true → s.currentPath ≠ [] →
      (handleEnd pg sid s).history pg = s.history pg ++ [s.drawings pg] ∧
      (handleEnd pg sid s).future pg = []) ∧
    (s.drawings pg ≠ [] →
      (clearPageDrawings pg s).history pg = s.history pg ++ [s.drawings pg] ∧
      (clearPageDrawings pg s).future pg = []) := by
  constructor
  · intro hm hc
    rw [handleEnd_spec pg sid s hm hc]
    simp
  · intro hne
    rw [clearPageDrawings_spec pg s hne]
    simp

/-- Witness for C3 on the concrete state `exInk` at page 1. -/
theorem mutation_snapshots_and_clears_future_witness :
    ((handleEnd 1 "d1" exInk).history 1 = exInk.history 1 ++ [exInk.drawings 1] ∧
     (handleEnd 1 "d1" exInk).future 1 = []) ∧
    ((clearPageDrawings 1 exInk).history 1 = exInk.history 1 ++ [exInk.drawings 1] ∧
     (clearPageDrawings 1 exInk).future 1 = []) :=
  ⟨(mutation_snapshots_and_clears_future 1 "d1" exInk).1 rfl (by decide),
   (mutation_snapshots_and_clears_future 1 "d1" exInk).2 (by decide)⟩

/-- C5 counterexample: with drawing mode on, a "begin" event immediately
followed by "end" (no "move") on page 1 of the fresh state does append a
stroke to the store and does take a history snapshot, contradicting the
claim that no stroke is appended and no snapshot is taken. -/
theorem begin_end_commits_dot_counterexample :
    (handleEnd 1 "d1" (handleMouseDown ⟨1/2, 1/2⟩ exReady)).drawings 1 ≠ [] ∧
    (handleEnd 1 "d1" (handleMouseDown ⟨1/2, 1/2⟩ exReady)).history 1 ≠ [] := by
  constructor <;> decide

/-- C5 amended: a "begin" event immediately followed by "end" (no "move"),
with drawing mode on, appends exactly one single-point stroke — the begin
point, stamped with the current pen color and the derived width — to the
page's store, and pushes one snapshot of the prior store onto the history
stack (the capture has one point, and the code commits any capture with at
least one point). -/
theorem begin_end_commits_dot (pg : Nat) (sid : String) (p : Pt)
    (s : ViewerState) (hm : s.isDrawingMode = true) :
    (handleEnd pg sid (handleMouseDown p s)).drawings pg =
      s.drawings pg ++
        [{ id := sid
           color := s.penColor
           strokeWidth := if s.penColor = "eraser" then 20 else 4
           points := [p] }] ∧
    (handleEnd pg sid (handleMouseDown p s)).history pg =
      s.history pg ++ [s.drawings pg] ∧
    (handleEnd pg sid (handleMouseDown p s)).future pg = [] := by
  have hdown : handleMouseDown p s = { s with currentPath := [p] } := by
    unfold handleMouseDown
    rw [if_neg]
    simp [hm]
  rw [hdown, handleEnd_spec pg sid { s with currentPath := [p] } hm (by simp)]
  simp

/-- Witness for C5's amended claim at the fresh state `exReady`, page 1. -/
theorem begin_end_commits_dot_witness :
    (handleEnd 1 "d1" (handleMouseDown ⟨1/2, 1/2⟩ exReady)).drawings 1 =
      exReady.drawings 1 ++
        [{ id := "d1"
           color := exReady.penColor
           strokeWidth := if exReady.penColor = "eraser" then 20 else 4
           points := [⟨1/2, 1/2⟩] }] ∧
    (handleEnd 1 "d1" (handleMouseDown ⟨1/2, 1/2⟩ exReady)).history 1 =
      exReady.history 1 ++ [exReady.drawings 1] ∧
    (handleEnd 1 "d1" (handleMouseDown ⟨1/2, 1/2⟩ exReady)).future 1 = [] :=
  begin_end_commits_dot 1 "d1" ⟨1/2, 1/2⟩ exReady rfl

/-- C6 counterexample: with drawing mode off and a two-point capture in the
buffer (state `exFrozen`), the end/leave event is a complete no-op — nothing
is committed to page 1's store — contradicting the claim that the final
commit still occurs. -/
theorem mode_off_end_no_commit_counterexample :
    handleEnd 1 "d1" exFrozen = exFrozen ∧
    (handleEnd 1 "d1" exFrozen).drawings 1 = [] :=
  ⟨rfl, rfl⟩

/-- C6 amended: if drawing mode is off while a capture is in progress, every
subsequent move event is ignored, and the end/leave event is ignored as well:
no commit occurs and the whole state (the captured path included) is left
unchanged. -/
theorem mode_off_freezes_capture (pg : Nat) (sid : String) (p : Pt)
    (s : ViewerState) (hm : s.isDrawingMode = false) (hc : s.currentPath ≠ []) :
    handleMouseMove p s = s ∧ handleEnd pg sid s = s := by
  constructor
  · unfold handleMouseMove
    rw [if_pos (Or.inl hm)]
  · unfold handleEnd
    rw [if_pos (Or.inl hm)]

/-- Witness for C6's amended claim at the concrete state `exFrozen`. -/
theorem mode_off_freezes_capture_witness :
    handleMouseMove ⟨1/2, 1/2⟩ exFrozen = exFrozen ∧
    handleEnd 1 "d1" exFrozen = exFrozen :=
  mode_off_freezes_capture 1 "d1" ⟨1/2, 1/2⟩ exFrozen rfl (by decide)

/-- C7: the compositor maps every normalized point of a stroke to the
absolute pixel position `(x*W, y*H)` of the current surface — a formula that
takes no recording-time dimension as input — and in particular the point
`(0.5, 0.5)`, as recorded from a click at client position `(300, 400)` on a
`600 × 800` surface, renders at pixel `(600, 800)` on a `1200 × 1600`
surface. -/
theorem compositor_resize_invariant (pts : List Pt) (color : String)
    (width W H : ℚ) (h2 : 2 ≤ pts.length) :
    (∃ r, drawPath pts color width W H = some r ∧
      r.pathPoints = pts.map (fun p => (p.x * W, p.y * H))) ∧
    normPoint 300 400 0 0 600 800 = ⟨1/2, 1/2⟩ ∧
    toPixel ⟨1/2, 1/2⟩ 1200 1600 = (600, 800) := by
  refine ⟨⟨_, drawPath_of_ge_two pts color width W H h2, rfl⟩, ?_, ?_⟩
  · norm_num [normPoint]
  · norm_num [toPixel]

/-- Witness for C7 on a concrete two-point stroke. -/
theorem compositor_resize_invariant_witness :
    (∃ r, drawPath [⟨0, 0⟩, ⟨1/2, 1/2⟩] "#ef4444" 4 1200 1600 = some r ∧
      r.pathPoints = [⟨0, 0⟩, ⟨1/2, 1/2⟩].map (fun p : Pt => (p.x * 1200, p.y * 1600))) ∧
    normPoint 300 400 0 0 600 800 = ⟨1/2, 1/2⟩ ∧
    toPixel ⟨1/2, 1/2⟩ 1200 1600 = (600, 800) :=
  compositor_resize_invariant [⟨0, 0⟩, ⟨1/2, 1/2⟩] "#ef4444" 4 1200 1600 (by decide)

/-- C8: for every stroke the compositor actually draws (at least two points):
with the eraser sentinel color it composites with the `destination-out`
(subtract/clear) blend at the fixed width 20 and sets no stroke color;
otherwise it composites with the normal `source-over` blend using the
stroke's own color and width; in both cases line caps and joins are
rounded. -/
theorem compositor_blend_modes (pts : List Pt) (color : String)
    (width W H : ℚ) (h2 : 2 ≤ pts.length) :
    ∃ r, drawPath pts color width W H = some r ∧
      r.lineCap = "round" ∧ r.lineJoin = "round" ∧
      (color = "eraser" →
        r.compositeOp = "destination-out" ∧ r.lineWidth = 20 ∧
        r.strokeStyle = none) ∧
      (color ≠ "eraser" →
        r.compositeOp = "source-over" ∧ r.strokeStyle = some color ∧
        r.lineWidth = width) := by
  refine ⟨_, drawPath_of_ge_two pts color width W H h2, rfl, rfl, ?_, ?_⟩
  · intro he
    simp [he]
  · intro he
    simp [he]

/-- Witness for C8 on a concrete eraser stroke. -/
theorem compositor_blend_modes_witness :
    ∃ r, drawPath [⟨0, 0⟩, ⟨1/2, 1/2⟩] "eraser" 4 600 800 = some r ∧
      r.lineCap = "round" ∧ r.lineJoin = "round" ∧
      ("eraser" = "eraser" →
        r.compositeOp = "destination-out" ∧ r.lineWidth = 20 ∧
        r.strokeStyle = none) ∧
      ("eraser" ≠ "eraser" →
        r.compositeOp = "source-over" ∧ r.strokeStyle = some "eraser" ∧
        r.lineWidth = 4) :=
  compositor_blend_modes [⟨0, 0⟩, ⟨1/2, 1/2⟩] "eraser" 4 600 800 (by decide)

/-- C10: a capture holding a single point is committed by `handleEnd` as a
one-point stroke that is kept in the page's store, and a later mutation's
snapshot (`saveHistory`) records the store with that stroke in it; yet the
compositor's per-stroke routine emits nothing for any stroke with fewer than
two points. -/
theorem dot_stroke_kept_but_not_drawn (pg : Nat) (sid : String) (p : Pt)
    (s : ViewerState) (hm : s.isDrawingMode = true) (hc : s.currentPath = [p]) :
    (handleEnd pg sid s).drawings pg =
      s.drawings pg ++
        [{ id := sid
           color := s.penColor
           strokeWidth := if s.penColor = "eraser" then 20 else 4
           points := [p] }] ∧
    (saveHistory pg (handleEnd pg sid s)).history pg =
      (handleEnd pg sid s).history pg ++ [(handleEnd pg sid s).drawings pg] ∧
    (∀ (qts : List Pt), qts.length < 2 →
      ∀ (color : String) (width W H : ℚ), drawPath qts color width W H = none) := by
  refine ⟨?_, ?_, ?_⟩
  · rw [handleEnd_spec pg sid s hm (by simp [hc])]
    simp [hc]
  · unfold saveHistory
    simp
  · intro qts hlen color width W H
    unfold drawPath
    rw [if_pos hlen]

/-- Witness for C10 on a one-point capture at the fresh state. -/
theorem dot_stroke_kept_but_not_drawn_witness :
    (handleEnd 1 "d1" { exReady with currentPath := [⟨1/2, 1/2⟩] }).drawings 1 =
      ({ exReady with currentPath := [⟨1/2, 1/2⟩] } : ViewerState).drawings 1 ++
        [{ id := "d1"
           color := ({ exReady with currentPath := [⟨1/2, 1/2⟩] } : ViewerState).penColor
           strokeWidth := if ({ exReady with currentPath := [⟨1/2, 1/2⟩] } : ViewerState).penColor = "eraser" then 20 else 4
           points := [⟨1/2, 1/2⟩] }] ∧
    (saveHistory 1 (handleEnd 1 "d1" { exReady with currentPath := [⟨1/2, 1/2⟩] })).history 1 =
      (handleEnd 1 "d1" { exReady with currentPath := [⟨1/2, 1/2⟩] }).history 1 ++
        [(handleEnd 1 "d1" { exReady with currentPath := [⟨1/2, 1/2⟩] }).drawings 1] ∧
    (∀ (qts : List Pt), qts.length < 2 →
      ∀ (color : String) (width W H : ℚ), drawPath qts color width W H = none) :=
  dot_stroke_kept_but_not_drawn 1 "d1" ⟨1/2, 1/2⟩
    { exReady with currentPath := [⟨1/2, 1/2⟩] } rfl rfl

/-- C9: for distinct pages `p ≠ q`, each of the four mutating operations on
page `p` — a stroke commit, undo, redo, and clear — leaves page `q`'s live
drawings, history stack and future stack unchanged. -/
theorem page_independence (p q : Nat) (sid : String) (s : ViewerState)
    (hpq : p ≠ q) :
    ((handleEnd p sid s).drawings q = s.drawings q ∧
     (handleEnd p sid s).history q = s.history q ∧
     (handleEnd p sid s).future q = s.future q) ∧
    ((undo p s).drawings q = s.drawings q ∧
     (undo p s).history q = s.history q ∧
     (undo p s).future q = s.future q) ∧
    ((redo p s).drawings q = s.drawings q ∧
     (redo p s).history q = s.history q ∧
     (redo p s).future q = s.future q) ∧
    ((clearPageDrawings p s).drawings q = s.drawings q ∧
     (clearPageDrawings p s).history q = s.history q ∧
     (clearPageDrawings p s).future q = s.future q) := by
  have hqp : q ≠ p := Ne.symm hpq
  refine ⟨?_, ?_, ?_, ?_⟩
  · by_cases hend : s.isDrawingMode = false ∨ s.currentPath = []
    · unfold handleEnd
      rw [if_pos hend]
      exact ⟨rfl, rfl, rfl⟩
    · push_neg at hend
      rw [handleEnd_spec p sid s (by simpa using hend.1) hend.2]
      simp [Function.update_noteq hqp]
  · by_cases hh : s.history p = []
    · rw [undo_of_empty p s hh]
      exact ⟨rfl, rfl, rfl⟩
    · rw [undo_spec p s hh]
      simp [Function.update_noteq hqp]
  · by_cases hf : s.future p = []
    · rw [redo_of_empty p s hf]
      exact ⟨rfl, rfl, rfl⟩
    · rw [redo_spec p s hf]
      simp [Function.update_noteq hqp]
  · by_cases hd : s.drawings p = []
    · rw [clearPageDrawings_of_empty p s hd]
      exact ⟨rfl, rfl, rfl⟩
    · rw [clearPageDrawings_spec p s hd]
      simp [Function.update_noteq hqp]

/-- Witness for C9 at the concrete state `exInk`, pages 1 and 2. -/
theorem page_independence_witness :
    ((handleEnd 1 "d1" exInk).drawings 2 = exInk.drawings 2 ∧
     (handleEnd 1 "d1" exInk).history 2 = exInk.history 2 ∧
     (handleEnd 1 "d1" exInk).future 2 = exInk.future 2) ∧
    ((undo 1 exInk).drawings 2 = exInk.drawings 2 ∧
     (undo 1 exInk).history 2 = exInk.history 2 ∧
     (undo 1 exInk).future 2 = exInk.future 2) ∧
    ((redo 1 exInk).drawings 2 = exInk.drawings 2 ∧
     (redo 1 exInk).history 2 = exInk.history 2 ∧
     (redo 1 exInk).future 2 = exInk.future 2) ∧
    ((clearPageDrawings 1 exInk).drawings 2 = exInk.drawings 2 ∧
     (clearPageDrawings 1 exInk).history 2 = exInk.history 2 ∧
     (clearPageDrawings 1 exInk).future 2 = exInk.future 2) :=
  page_independence 1 2 "d1" exInk (by decide)

/-! Machinery for C1: whole capture-and-commit sessions and the undo/redo
roundtrip over them. -/

/-- The input data of one captured stroke: the generated identifier, the
begin-event point and the subsequent move-event points. -/
structure StrokeSpec where
  sid : String
  head : Pt
  rest : List Pt
deriving DecidableEq, Repr

/-- Feed one begin event and a list of move events into the capture. -/
def capture (p0 : Pt) (rest : List Pt) (s : ViewerState) : ViewerState :=
  rest.foldl (fun t q => handleMouseMove q t) (handleMouseDown p0 s)

/-- One full stroke commit on page `pg`: capture, then the end event. -/
def commitOne (pg : Nat) (sp : StrokeSpec) (s : ViewerState) : ViewerState :=
  handleEnd pg sp.sid (capture sp.head sp.rest s)

/-- A session of consecutive stroke commits on page `pg`. -/
def commitList (pg : Nat) (l : List StrokeSpec) (s : ViewerState) : ViewerState :=
  l.foldl (fun t sp => commitOne pg sp t) s

/-- The committed `Drawing` a stroke spec produces under pen color `pc`. -/
def specDrawing (pc : String) (sp : StrokeSpec) : Drawing :=
  { id := sp.sid
    color := pc
    strokeWidth := if pc = "eraser" then 20 else 4
    points := sp.head :: sp.rest }

/-- The history snapshots accumulated by committing the strokes of `l`, in
order, on a page whose drawings start at `ds`. -/
def histSeq (pc : String) (ds : List Drawing) : List StrokeSpec → List (List Drawing)
  | [] => []
  | sp :: l => ds :: histSeq pc (ds ++ [specDrawing pc sp]) l

theorem histSeq_length (pc : String) (l : List StrokeSpec) :
    ∀ (ds : List Drawing), (histSeq pc ds l).length = l.length := by
  induction l with
  | nil => intro ds; rfl
  | cons sp l ih =>
    intro ds
    simp [histSeq, ih]

theorem foldl_moves (qs : List Pt) :
    ∀ (s : ViewerState), s.isDrawingMode = true → s.currentPath ≠ [] →
      qs.foldl (fun t q => handleMouseMove q t) s =
        { s with currentPath := s.currentPath ++ qs } := by
  induction qs with
  | nil =>
    intro s _ _
    rw [List.foldl_nil, List.append_nil]
  | cons q qs ih =>
    intro s hm hc
    rw [List.foldl_cons]
    have hmove : handleMouseMove q s = { s with currentPath := s.currentPath ++ [q] } := by
      unfold handleMouseMove
      rw [if_neg (by simp [hm, hc])]
    rw [hmove, ih _ (by simp [hm]) (by simp)]
    simp

theorem capture_spec (p0 : Pt) (rest : List Pt) (s : ViewerState)
    (hm : s.isDrawingMode = true) :
    capture p0 rest s = { s with currentPath := p0 :: rest } := by
  unfold capture
  have hdown : handleMouseDown p0 s = { s with currentPath := [p0] } := by
    unfold handleMouseDown
    rw [if_neg (by simp [hm])]
  rw [hdown, foldl_moves rest _ (by simp [hm]) (by simp)]
  simp

theorem commitOne_spec (pg : Nat) (sp : StrokeSpec) (s : ViewerState)
    (hm : s.isDrawingMode = true) :
    commitOne pg sp s =
      { s with
        history := Function.update s.history pg (s.history pg ++ [s.drawings pg])
        future := Function.update s.future pg []
        drawings := Function.update s.drawings pg
          (s.drawings pg ++ [specDrawing s.penColor sp])
        currentPath := [] } := by
  unfold commitOne
  rw [capture_spec sp.head sp.rest s hm,
      handleEnd_spec pg sp.sid _ (by simp [hm]) (by simp)]
  rfl

theorem commitList_cons (pg : Nat) (sp : StrokeSpec) (l : List StrokeSpec)
    (s : ViewerState) :
    commitList pg (sp :: l) s = commitList pg l (commitOne pg sp s) := rfl

/-- Shape of the page state after a session of commits: the strokes are
appended in order, each commit's prior store is pushed as a snapshot, and the
future stack ends up cleared (or untouched when the session is empty). -/
theorem commitList_spec (pg : Nat) (l : List StrokeSpec) :
    ∀ (s : ViewerState), s.isDrawingMode = true →
      (commitList pg l s).isDrawingMode = true ∧
      (commitList pg l s).penColor = s.penColor ∧
      (commitList pg l s).drawings pg =
        s.drawings pg ++ l.map (specDrawing s.penColor) ∧
      (commitList pg l s).history pg =
        s.history pg ++ histSeq s.penColor (s.drawings pg) l ∧
      ((commitList pg l s).future pg = s.future pg ∨
        (commitList pg l s).future pg = []) := by
  induction l with
  | nil =>
    intro s hm
    exact ⟨hm, rfl, by simp [commitList, histSeq], by simp [commitList, histSeq],
      Or.inl rfl⟩
  | cons sp l ih =>
    intro s hm
    have hstep := commitOne_spec pg sp s hm
    have hmode : (commitOne pg sp s).isDrawingMode = true := by
      rw [hstep]
      exact hm
    have h1 : (commitOne pg sp s).penColor = s.penColor := by rw [hstep]
    have h2 : (commitOne pg sp s).drawings pg =
        s.drawings pg ++ [specDrawing s.penColor sp] := by
      rw [hstep]
      simp
    have h3 : (commitOne pg sp s).history pg =
        s.history pg ++ [s.drawings pg] := by
      rw [hstep]
      simp
    have h4 : (commitOne pg sp s).future pg = [] := by
      rw [hstep]
      simp
    obtain ⟨m, pc, dw, hi, fu⟩ := ih (commitOne pg sp s) hmode
    rw [commitList_cons]
    refine ⟨m, by rw [pc, h1], ?_, ?_, ?_⟩
    · rw [dw, h1, h2]
      simp
    · rw [hi, h1, h2, h3]
      simp [histSeq]
    · right
      rcases fu with fu | fu
      · rw [fu, h4]
      · exact fu

theorem undo_history_proj (pg : Nat) (s : ViewerState) (hne : s.history pg ≠ []) :
    (undo pg s).history pg = (s.history pg).dropLast := by
  rw [undo_spec pg s hne]
  simp

theorem undo_drawings_proj (pg : Nat) (s : ViewerState) (hne : s.history pg ≠ []) :
    (undo pg s).drawings pg = (s.history pg).getLast hne := by
  rw [undo_spec pg s hne]
  simp

/-- When the page's history stack ends with snapshot `a`, `undo` pops `a`
into the live drawings and leaves `t` on the stack. -/
theorem undo_pop (pg : Nat) (s : ViewerState) (a : List Drawing)
    (t : List (List Drawing)) (hh : s.history pg = t ++ [a]) :
    (undo pg s).drawings pg = a ∧ (undo pg s).history pg = t := by
  unfold undo
  rw [hh]
  simp [List.getLast?_concat, List.dropLast_concat]

/-- Draining the whole history stack with `undo` lands the page on the oldest
snapshot and empties the stack. -/
theorem undo_drain (pg : Nat) :
    ∀ (n : Nat) (a : List Drawing) (t : List (List Drawing)) (s : ViewerState),
      s.history pg = a :: t → (a :: t).length = n →
      ((undo pg)^[n] s).drawings pg = a ∧ ((undo pg)^[n] s).history pg = [] := by
  intro n
  induction n with
  | zero =>
    intro a t s _ hlen
    simp at hlen
  | succ n ih =>
    intro a t s hhist hlen
    rw [Function.iterate_succ_apply]
    rcases t.eq_nil_or_concat' with rfl | ⟨ts, b, rfl⟩
    · have hpop := undo_pop pg s a [] hhist
      have hn : n = 0 := by
        simp at hlen
        omega
      subst hn
      rw [Function.iterate_zero_apply]
      exact hpop
    · have hpop := undo_pop pg s b (a :: ts) hhist
      have hlen' : (a :: ts).length = n := by
        simp at hlen ⊢
        omega
      exact ih a ts (undo pg s) hpop.2 hlen'

/-- On a page with a non-empty history stack, `redo` exactly inverts `undo`. -/
theorem redo_undo (pg : Nat) (s : ViewerState) (hne : s.history pg ≠ []) :
    redo pg (undo pg s) = s := by
  rw [undo_spec pg s hne]
  have hfut : (Function.update s.future pg
      (s.future pg ++ [s.drawings pg])) pg ≠ [] := by
    simp
  rw [redo_spec pg _ (by simpa using hfut)]
  simp only [Function.update_same, Function.update_idem]
  rw [List.dropLast_append_getLast hne, List.dropLast_concat,
    List.getLast_append_singleton]
  simp [Function.update_eq_self]

/-- Doing `n` undos then `n` redos is the identity whenever the history stack
holds at least `n` snapshots. -/
theorem redo_undo_iter (pg : Nat) :
    ∀ (n : Nat) (s : ViewerState), n ≤ (s.history pg).length →
      (redo pg)^[n] ((undo pg)^[n] s) = s := by
  intro n
  induction n with
  | zero =>
    intro s _
    rfl
  | succ n ih =>
    intro s hn
    have hne : s.history pg ≠ [] := by
      intro h
      rw [h] at hn
      simp at hn
    have hlen : n ≤ ((undo pg s).history pg).length := by
      rw [undo_history_proj pg s hne, List.length_dropLast]
      omega
    rw [Function.iterate_succ_apply', Function.iterate_succ_apply, ih _ hlen,
      redo_undo pg s hne]

/-- C1: from an empty page with drawing mode on, any session of N stroke
commits, followed by N undos, returns the page's live stroke sequence to
empty, and N redos then restore the final state exactly — with the N
committed strokes in their original order. -/
theorem commit_undo_redo_roundtrip (pg : Nat) (l : List StrokeSpec)
    (s : ViewerState) (hm : s.isDrawingMode = true) (hd : s.drawings pg = [])
    (hh : s.history pg = []) (hf : s.future pg = []) :
    ((undo pg)^[l.length] (commitList pg l s)).drawings pg = [] ∧
    (redo pg)^[l.length] ((undo pg)^[l.length] (commitList pg l s)) =
      commitList pg l s ∧
    (commitList pg l s).drawings pg = l.map (specDrawing s.penColor) := by
  obtain ⟨-, -, dw, hi, -⟩ := commitList_spec pg l s hm
  have hist_eq : (commitList pg l s).history pg = histSeq s.penColor [] l := by
    rw [hi, hh, hd]
    simp
  have hlen : ((commitList pg l s).history pg).length = l.length := by
    rw [hist_eq, histSeq_length]
  refine ⟨?_, redo_undo_iter pg l.length _ (le_of_eq hlen.symm),
    by rw [dw, hd]; simp⟩
  cases l with
  | nil =>
    simp only [List.length_nil, Function.iterate_zero_apply]
    rw [dw, hd]
    simp
  | cons sp l' =>
    have hh1 : (commitList pg (sp :: l') s).history pg =
        [] :: histSeq s.penColor ([] ++ [specDrawing s.penColor sp]) l' := by
      rw [hist_eq]
      rfl
    have hlc : (([] : List Drawing) ::
        histSeq s.penColor ([] ++ [specDrawing s.penColor sp]) l').length =
        (sp :: l').length := by
      simp [histSeq_length]
    exact (undo_drain pg (sp :: l').length [] _ _ hh1 hlc).1

/-- A concrete two-stroke session used by the C1 witness. -/
def exStrokes : List StrokeSpec :=
  [⟨"a", ⟨0, 0⟩, [⟨1, 1⟩]⟩, ⟨"b", ⟨1/2, 1/2⟩, []⟩]

/-- Witness for C1: two commits, two undos, two redos at page 1 from the
fresh state `exReady`. -/
theorem commit_undo_redo_roundtrip_witness :
    ((undo 1)^[exStrokes.length] (commitList 1 exStrokes exReady)).drawings 1 = [] ∧
    (redo 1)^[exStrokes.length]
        ((undo 1)^[exStrokes.length] (commitList 1 exStrokes exReady)) =
      commitList 1 exStrokes exReady ∧
    (commitList 1 exStrokes exReady).drawings 1 =
      exStrokes.map (specDrawing exReady.penColor) :=
  commit_undo_redo_roundtrip 1 exStrokes exReady rfl rfl rfl rfl
